import Mathlib

/-!
Verification development for the AlphaLens signal-detection and
strategy-backtesting engine (`backend/app/agent/financial_agent.py` and
`backend/app/agent/strategy_backtest.py`).

Conventions of the shallow embedding:
* pandas float columns are modelled exactly over `ℚ`; a cell that pandas
  leaves as `NaN` is modelled as `none : Option ℚ`.  Comparisons against a
  possibly-`NaN` cell follow IEEE semantics: any comparison with `NaN` is
  false (`oltB`, `oleB`, `ogtB`, `ogeB` below).
* trading dates are modelled as natural-number day ordinals; the source's
  `(d2 - d1).days` becomes integer subtraction of ordinals.
* human-readable reason strings and the `signal_type` label strings carried
  on trades are presentation data and are not modelled; a signal keeps its
  structured fields (type, strength, date, indicator family).
* the Bollinger upper/lower bands (`middle ± 2 * rolling std`) involve a
  real square root and are read by no function relevant to the claims; the
  engine model keeps `bollinger_middle` (the SMA(20) column) and omits the
  two derived band columns.
-/

set_option linter.unusedVariables false

namespace AlphaLens

/-- A raw OHLCV price point (one row of the fetched DataFrame):
date ordinal, open, close, high, low, volume. -/
structure PricePoint where
  date : ℕ
  openPrice : ℚ
  close : ℚ
  high : ℚ
  low : ℚ
  volume : ℚ
  deriving DecidableEq, Inhabited

/-- A row of the indicator-augmented DataFrame produced by
`calculate_technical_indicators`: the original price point plus the derived
indicator columns (each `none` where pandas leaves `NaN`). -/
structure IndRow where
  price : PricePoint
  ma5 : Option ℚ
  ma10 : Option ℚ
  ma20 : Option ℚ
  ma30 : Option ℚ
  ma60 : Option ℚ
  rsi : Option ℚ
  macd : Option ℚ
  macd_signal : Option ℚ
  macd_histogram : Option ℚ
  bollinger_middle : Option ℚ
  deriving DecidableEq, Inhabited

/-- Date of an indicator row (the underlying price point's date). -/
def IndRow.date (r : IndRow) : ℕ := r.price.date

/-- Close of an indicator row. -/
def IndRow.close (r : IndRow) : ℚ := r.price.close

/-- Volume of an indicator row. -/
def IndRow.volume (r : IndRow) : ℚ := r.price.volume

/-- IEEE-style `<` on possibly-NaN cells: false if either side is NaN. -/
def oltB (a b : Option ℚ) : Bool :=
  match a, b with
  | some x, some y => decide (x < y)
  | _, _ => false

/-- IEEE-style `≤` on possibly-NaN cells: false if either side is NaN. -/
def oleB (a b : Option ℚ) : Bool :=
  match a, b with
  | some x, some y => decide (x ≤ y)
  | _, _ => false

/-- IEEE-style `>` on possibly-NaN cells: false if either side is NaN. -/
def ogtB (a b : Option ℚ) : Bool :=
  match a, b with
  | some x, some y => decide (y < x)
  | _, _ => false

/-- IEEE-style `≥` on possibly-NaN cells: false if either side is NaN. -/
def ogeB (a b : Option ℚ) : Bool :=
  match a, b with
  | some x, some y => decide (y ≤ x)
  | _, _ => false

/-! The Indicator Engine (`calculate_technical_indicators`,
financial_agent.py lines 116-147), column by column. -/

/-- Trailing simple moving average of window `w` at index `i`
(`df['close'].rolling(window=w).mean()`): defined once `i + 1 ≥ w`,
`NaN` (here `none`) for the first `w - 1` indices. -/
def smaAt (xs : List ℚ) (w i : ℕ) : Option ℚ :=
  if w ≤ i + 1 then some ((((xs.drop (i + 1 - w)).take w).sum) / w) else none

/-- The positive-delta series `delta.where(delta > 0, 0)`: the NaN delta at
index 0 fails the `> 0` test and is replaced by 0 like every non-positive
delta. -/
def gainAt (xs : List ℚ) (i : ℕ) : ℚ :=
  if i = 0 then 0 else max (xs.getD i 0 - xs.getD (i - 1) 0) 0

/-- The negated negative-delta series `-delta.where(delta < 0, 0)`. -/
def lossAt (xs : List ℚ) (i : ℕ) : ℚ :=
  if i = 0 then 0 else max (xs.getD (i - 1) 0 - xs.getD i 0) 0

/-- Fourteen-period rolling mean of the gain series, defined from index 13. -/
def avgGainAt (xs : List ℚ) (i : ℕ) : Option ℚ :=
  if 13 ≤ i then some ((((List.range' (i - 13) 14).map (gainAt xs)).sum) / 14)
  else none

/-- Fourteen-period rolling mean of the loss series, defined from index 13. -/
def avgLossAt (xs : List ℚ) (i : ℕ) : Option ℚ :=
  if 13 ≤ i then some ((((List.range' (i - 13) 14).map (lossAt xs)).sum) / 14)
  else none

/-- RSI from average gain `g` and average loss `l`, following the IEEE float
semantics of `rs = gain / loss; rsi = 100 - 100 / (1 + rs)` on the
non-negative values `g`, `l`: when `l = 0` and `g = 0` the quotient is NaN
and the RSI cell is NaN (`none`); when `l = 0` and `g > 0` the quotient is
`+inf` and the expression evaluates to exactly `100`; otherwise it is the
finite rational value. -/
def rsiVal (g l : ℚ) : Option ℚ :=
  if l = 0 then (if g = 0 then none else some 100)
  else some (100 - 100 / (1 + g / l))

/-- RSI column at index `i`. -/
def rsiAt (xs : List ℚ) (i : ℕ) : Option ℚ :=
  match avgGainAt xs i, avgLossAt xs i with
  | some g, some l => rsiVal g l
  | _, _ => none

/-- Recursive tail of an adjust-free exponential moving average:
`EMA_t = a*x_t + (1-a)*EMA_(t-1)`. -/
def emaGo (a : ℚ) (prev : ℚ) : List ℚ → List ℚ
  | [] => []
  | x :: rest =>
    let e := a * x + (1 - a) * prev
    e :: emaGo a e rest

/-- Adjust-free exponential moving average column
(`ewm(span=span, adjust=False).mean()`): seeded with the first observation,
`a = 2 / (span + 1)`. -/
def emaCol (span : ℕ) (xs : List ℚ) : List ℚ :=
  match xs with
  | [] => []
  | x :: rest => x :: emaGo (2 / ((span : ℚ) + 1)) x rest

/-- MACD column: `EMA(12) - EMA(26)` of the close column. -/
def macdCol (xs : List ℚ) : List ℚ :=
  List.zipWith (fun a b => a - b) (emaCol 12 xs) (emaCol 26 xs)

/-- Indicator Engine (`calculate_technical_indicators`): maps a raw price
series to the indicator-augmented series of the same length.  The source
copies the input frame and adds derived columns; every original column is
carried through unchanged in the `price` field. -/
def calculate_technical_indicators (prices : List PricePoint) : List IndRow :=
  let cl := prices.map PricePoint.close
  let macd := macdCol cl
  let sig := emaCol 9 macd
  let hist := List.zipWith (fun a b => a - b) macd sig
  (List.range prices.length).map (fun i =>
    { price := prices.getD i default
      ma5 := smaAt cl 5 i
      ma10 := smaAt cl 10 i
      ma20 := smaAt cl 20 i
      ma30 := smaAt cl 30 i
      ma60 := smaAt cl 60 i
      rsi := rsiAt cl i
      macd := macd.get? i
      macd_signal := sig.get? i
      macd_histogram := hist.get? i
      bollinger_middle := smaAt cl 20 i })

/-! The Signal Detector (financial_agent.py lines 149-627). -/

/-- Type of a trading signal. -/
inductive SigType where
  | buy
  | sell
  | hold
  deriving DecidableEq

/-- Indicator family that produced a signal (the `indicators_used` field:
`[MA5, MA30]`, `[RSI]`, `[MACD]`, or the composite tag of a hold signal). -/
inductive IndFamily where
  | maF
  | rsiF
  | macdF
  | compF
  deriving DecidableEq

/-- A trading signal: structured fields of the signal dictionaries built by
the detectors (the human-readable `signal_reason` string is presentation
data and is not modelled). -/
structure Signal where
  signal_type : SigType
  signal_strength : ℚ
  signal_date : ℕ
  family : IndFamily
  deriving DecidableEq

/-- Depth-of-breach strength for RSI signals
(`_calculate_rsi_signal_strength`, lines 149-176).  Falls through to `0.5`
when no threshold branch fires. -/
def calculate_rsi_signal_strength (rsiValue : ℚ) (stype : SigType) : ℚ :=
  match stype with
  | .buy =>
    if rsiValue < 20 then 9/10
    else if rsiValue < 25 then 8/10
    else if rsiValue < 30 then 6/10 + (30 - rsiValue) / 10 * (2/10)
    else 1/2
  | .sell =>
    if rsiValue > 80 then 9/10
    else if rsiValue > 75 then 8/10
    else if rsiValue > 70 then 6/10 + (rsiValue - 70) / 10 * (2/10)
    else 1/2
  | .hold => 1/2

/-- Cross-quality score for an MA cross
(`_calculate_ma_cross_strength`, lines 178-222).  `recent` is
`df.iloc[-window-1:-1]`, the `window` rows before the evaluation day.  The
source's `pd.notna(latest['volume'])` guard is always true here because the
volume column carries no NaN. -/
def calculate_ma_cross_strength (df : List IndRow) (window : ℕ) : ℚ :=
  if df.length < window + 1 then 1/2 else
  let latest := df.getLastD default
  let recent := (df.drop (df.length - (window + 1))).take window
  let s1 : ℚ := 1/2 +
    (if 0 < recent.length then
      let avgVolume := ((recent.map IndRow.volume).sum) / recent.length
      if latest.volume > avgVolume * (12/10) then 15/100
      else if latest.volume > avgVolume * (11/10) then 1/10
      else 0
    else 0)
  let s2 : ℚ := s1 +
    (if 3 ≤ recent.length then
      let p0 := (recent.headD default).close
      let priceTrend := (latest.close - p0) / p0
      if |priceTrend| > 2/100 then 1/10 else 0
    else 0)
  let s3 : ℚ := s2 +
    (match latest.ma5, latest.ma30 with
     | some a, some b =>
       let separation := |a - b| / b
       if separation > 5/100 then 1/10
       else if separation > 3/100 then 1/20
       else 0
     | _, _ => 0)
  min s3 1

/-- Result of the RSI divergence check. -/
inductive Divergence where
  | noDiv
  | bullish
  | bearish
  deriving DecidableEq

/-- RSI divergence check (`_check_rsi_divergence`, lines 224-251) over the
last `window + 1` rows.  When either endpoint's RSI is NaN the float
`rsi_change` is NaN and both comparisons are false, so no divergence. -/
def check_rsi_divergence (df : List IndRow) (window : ℕ) : Divergence :=
  if df.length < window + 1 then .noDiv else
  let recent := df.drop (df.length - (window + 1))
  let priceChange :=
    ((recent.getLastD default).close - (recent.headD default).close)
      / (recent.headD default).close
  match (recent.headD default).rsi, (recent.getLastD default).rsi with
  | some r0, some r1 =>
    if priceChange < -(2/100) ∧ r1 - r0 > 5 then .bullish
    else if priceChange > 2/100 ∧ r1 - r0 < -5 then .bearish
    else .noDiv
  | _, _ => .noDiv

/-- RSI threshold rule evaluated for one day.  The two scan modes contain
this block verbatim (lines 329-370 in latest mode with `ctx = df`,
`row = latest`; lines 541-575 in full-scan mode with `ctx = df.iloc[:i+1]`,
`row = current_row`), so it is translated once. -/
def rsiSignalBlock (ctx : List IndRow) (window : ℕ) (row : IndRow) : List Signal :=
  match row.rsi with
  | some r =>
    let div := check_rsi_divergence ctx window
    if r < 30 then
      let s0 := calculate_rsi_signal_strength r .buy
      let s := if div = .bullish then min (s0 + 15/100) 1 else s0
      [⟨.buy, s, row.date, .rsiF⟩]
    else if r > 70 then
      let s0 := calculate_rsi_signal_strength r .sell
      let s := if div = .bearish then min (s0 + 15/100) 1 else s0
      [⟨.sell, s, row.date, .rsiF⟩]
    else []
  | none => []

/-- Hold-fallback signal of the latest-day detector (lines 420-462):
sequential reassignments of `hold_strength` (MA closeness, then RSI
neutrality, then short/medium trend disagreement; the last assignment that
fires wins). -/
def holdSignal (df : List IndRow) (latest : IndRow) : Signal :=
  let s1 : ℚ :=
    match latest.ma5, latest.ma30 with
    | some a, some b => if |a - b| / b < 2/100 then 6/10 else 1/2
    | _, _ => 1/2
  let s2 : ℚ :=
    match latest.rsi with
    | some r => if 30 ≤ r ∧ r ≤ 70 then 55/100 else s1
    | none => s1
  let s3 : ℚ :=
    if 20 ≤ df.length then
      let cl := df.map IndRow.close
      let shortUp := decide (cl.getD (df.length - 5) 0 < cl.getD (df.length - 1) 0)
      let mediumUp := decide (cl.getD (df.length - 20) 0 < cl.getD (df.length - 1) 0)
      if shortUp ≠ mediumUp then 6/10 else s2
    else s2
  ⟨.hold, s3, latest.date, .compF⟩

/-- MA cross rule in latest mode (lines 279-326): the golden-cross block
and the death-cross block are two independent `if` statements guarded only
by the final row's MA cells being non-NaN; a NaN MA cell of the previous
row makes the float cross comparison false. -/
def maBlockLatest (tk : List IndRow) (window : ℕ) (cur prv : IndRow) : List Signal :=
  (match cur.ma5, cur.ma30 with
   | some a, some b =>
     if a > b ∧ oleB prv.ma5 prv.ma30 then
       [⟨.buy, (6/10 + calculate_ma_cross_strength tk window) / 2, cur.date, .maF⟩]
     else []
   | _, _ => []) ++
  (match cur.ma5, cur.ma30 with
   | some a, some b =>
     if a < b ∧ ogeB prv.ma5 prv.ma30 then
       [⟨.sell, (6/10 + calculate_ma_cross_strength tk window) / 2, cur.date, .maF⟩]
     else []
   | _, _ => [])

/-- MACD cross rule in latest mode (lines 372-418): `if` / `elif` on the
two cross directions, with the histogram-momentum bonuses (the second
bonus additionally requires `len(df) > 1`). -/
def macdBlockLatest (tk : List IndRow) (cur prv : IndRow) : List Signal :=
  match cur.macd, cur.macd_signal with
  | some m, some s =>
    if m > s ∧ oleB prv.macd prv.macd_signal then
      let strength := 6/10 +
        (match cur.macd_histogram with
         | some h =>
           (if h > 0 then 1/10 else 0) +
           (if 1 < tk.length then
             (match prv.macd_histogram with
              | some hp => if h > hp then 1/10 else 0
              | none => 0)
            else 0)
         | none => 0)
      [⟨.buy, min strength 1, cur.date, .macdF⟩]
    else if m < s ∧ ogeB prv.macd prv.macd_signal then
      let strength := 6/10 +
        (match cur.macd_histogram with
         | some h =>
           (if h < 0 then 1/10 else 0) +
           (if 1 < tk.length then
             (match prv.macd_histogram with
              | some hp => if h < hp then 1/10 else 0
              | none => 0)
            else 0)
         | none => 0)
      [⟨.sell, min strength 1, cur.date, .macdF⟩]
    else []
  | _, _ => []

/-- MA cross rule in full-scan mode (lines 497-538): like the latest-mode
rule but with an explicit non-NaN requirement on the previous row's MA
cells, and `if` / `elif` between the two directions. -/
def maBlockFB (tk : List IndRow) (window : ℕ) (cur prv : IndRow) : List Signal :=
  match cur.ma5, cur.ma30 with
  | some a, some b =>
    match prv.ma5, prv.ma30 with
    | some pa, some pb =>
      if a > b ∧ pa ≤ pb then
        [⟨.buy, (6/10 + calculate_ma_cross_strength tk window) / 2, cur.date, .maF⟩]
      else if a < b ∧ pa ≥ pb then
        [⟨.sell, (6/10 + calculate_ma_cross_strength tk window) / 2, cur.date, .maF⟩]
      else []
    | _, _ => []
  | _, _ => []

/-- MACD cross rule in full-scan mode (lines 577-622): like the latest-mode
rule but with an explicit non-NaN requirement on the previous row's MACD
cells and no `len(df) > 1` test. -/
def macdBlockFB (cur prv : IndRow) : List Signal :=
  match cur.macd, cur.macd_signal with
  | some m, some s =>
    match prv.macd, prv.macd_signal with
    | some pm, some ps =>
      if m > s ∧ pm ≤ ps then
        let strength := 6/10 +
          (match cur.macd_histogram with
           | some h =>
             (if h > 0 then 1/10 else 0) +
             (match prv.macd_histogram with
              | some hp => if h > hp then 1/10 else 0
              | none => 0)
           | none => 0)
        [⟨.buy, min strength 1, cur.date, .macdF⟩]
      else if m < s ∧ pm ≥ ps then
        let strength := 6/10 +
          (match cur.macd_histogram with
           | some h =>
             (if h < 0 then 1/10 else 0) +
             (match prv.macd_histogram with
              | some hp => if h < hp then 1/10 else 0
              | none => 0)
           | none => 0)
        [⟨.sell, min strength 1, cur.date, .macdF⟩]
      else []
    | _, _ => []
  | _, _ => []

/-- Latest-day signal detection (`detect_trading_signals`, lines 253-464):
evaluates only the final row of the frame in source order (MA cross, RSI,
MACD); emits a synthesized hold signal when no rule fires. -/
def detect_trading_signals (df : List IndRow) (window : ℕ) : List Signal :=
  if df.length < 30 then [] else
  let latest := df.getLastD default
  let prev := if 1 < df.length then df.getD (df.length - 2) default else latest
  let ruleSigs :=
    maBlockLatest df window latest prev ++
    rsiSignalBlock df window latest ++
    macdBlockLatest df latest prev
  if ruleSigs = [] then [holdSignal df latest] else ruleSigs

/-- One day of the full-history scan (`detect_trading_signals_for_backtest`
loop body, lines 487-625): evaluates day `i` against day `i - 1`, with the
strength helpers applied to the truncated frame `df.iloc[:i+1]`; emits no
hold fallback. -/
def backtestDaySignals (df : List IndRow) (window i : ℕ) : List Signal :=
  let currentRow := df.getD i default
  let prevRow := if 0 < i then df.getD (i - 1) default else currentRow
  maBlockFB (df.take (i+1)) window currentRow prevRow ++
  rsiSignalBlock (df.take (i+1)) window currentRow ++
  macdBlockFB currentRow prevRow

/-- Full-history signal scan (`detect_trading_signals_for_backtest`,
lines 466-627): evaluates every day from index 30 onward and concatenates
the per-day signals in date order. -/
def detect_trading_signals_for_backtest (df : List IndRow) (window : ℕ) : List Signal :=
  if df.length < 30 then []
  else ((List.range' 30 (df.length - 30)).map (backtestDaySignals df window)).flatten

/-- Drops the synthesized hold signals from a signal list (used to compare
the two scan modes: the hold fallback exists only in latest mode). -/
def removeHold (sigs : List Signal) : List Signal :=
  sigs.filter (fun s => decide (s.signal_type ≠ SigType.hold))

/-! The Strategy Backtester (strategy_backtest.py). -/

/-- Parameters of a backtest run (the fields of `BacktestRequest` consumed
by the simulation; stock code and raw date strings are external-interface
data). -/
structure BacktestRequest where
  initial_capital : ℚ
  shares_per_trade : ℕ
  hold_days : Option ℕ
  min_signal_strength : ℚ
  signal_types : Option (List SigType)

/-- Transient open-position state of a backtest run.  The `signal_type`
label string carried by the source's position dict is presentation data and
is not modelled. -/
structure Position where
  buy_date : ℕ
  buy_price : ℚ
  shares : ℕ
  deriving DecidableEq

/-- A closed trade record (`BacktestTrade`), minus its label string. -/
structure BacktestTrade where
  trade_id : ℕ
  buy_date : ℕ
  buy_price : ℚ
  sell_date : ℕ
  sell_price : ℚ
  shares : ℕ
  profit : ℚ
  return_rate : ℚ
  hold_days : ℤ
  deriving DecidableEq

/-- Running state of the backtest execution loop: the capital ledger, the
at-most-one open position, the trade ledger and the next trade id. -/
structure BState where
  capital : ℚ
  position : Option Position
  trades : List BacktestTrade
  trade_id : ℕ
  deriving DecidableEq

/-- Initial state of a run. -/
def initState (initialCapital : ℚ) : BState :=
  ⟨initialCapital, none, [], 1⟩

/-- Shares per trade rounded down to the lot size 100:
`(request.shares_per_trade // 100) * 100`. -/
def lotShares (sharesPerTrade : ℕ) : ℕ :=
  sharesPerTrade / 100 * 100

/-- Close the open position `p` at `price` on day `date`: credit the
proceeds, append the `BacktestTrade`, bump the trade id.  The source
repeats this block verbatim for signal sells, hold-days forced closes and
the end-of-backtest close (only the label string differs). -/
def closeTrade (s : BState) (p : Position) (date : ℕ) (price : ℚ) : BState :=
  let profit := (price - p.buy_price) * (p.shares : ℚ)
  let returnRate := if 0 < p.buy_price then (price - p.buy_price) / p.buy_price else 0
  { capital := s.capital + price * (p.shares : ℚ)
    position := none
    trades := s.trades ++ [⟨s.trade_id, p.buy_date, p.buy_price, date, price, p.shares,
      profit, returnRate * 100, (date : ℤ) - (p.buy_date : ℤ)⟩]
    trade_id := s.trade_id + 1 }

/-- Process one matched signal of the current day (signal-based strategy,
lines 456-508): a buy with no open position opens one when capital covers
the lot cost; a sell with an open position closes it; anything else is
ignored. -/
def processSignal (req : BacktestRequest) (date : ℕ) (price : ℚ)
    (s : BState) (sig : Signal) : BState :=
  match sig.signal_type, s.position with
  | .buy, none =>
    let shares := lotShares req.shares_per_trade
    let cost := price * (shares : ℚ)
    if cost ≤ s.capital then
      { s with position := some ⟨date, price, shares⟩, capital := s.capital - cost }
    else s
  | .sell, some p => closeTrade s p date price
  | _, _ => s

/-- Hold-days constraint check (lines 510-538): when a maximum hold-days
parameter is set and the open position has been held at least that long,
force-close at the current day's price. -/
def holdDaysCheck (req : BacktestRequest) (date : ℕ) (price : ℚ) (s : BState) : BState :=
  match s.position, req.hold_days with
  | some p, some h =>
    if (h : ℤ) ≤ (date : ℤ) - (p.buy_date : ℤ) then closeTrade s p date price else s
  | _, _ => s

/-- One simulated day of the signal-based strategy (loop body, lines
426-538): match the pre-filtered signals to the day by exact date (with the
source's re-check of the strength threshold), and if any matched, process
them in order and then apply the hold-days check; a day with no matching
signal is skipped entirely (`continue`), including its hold-days check. -/
def signalDayStep (req : BacktestRequest) (eligible : List Signal)
    (s : BState) (row : IndRow) : BState :=
  let daySigs := eligible.filter (fun g =>
    decide (g.signal_date = row.date) &&
      !decide (g.signal_strength < req.min_signal_strength))
  if daySigs = [] then s
  else holdDaysCheck req row.date row.close
    (daySigs.foldl (processSignal req row.date row.close) s)

/-- Pre-filter of the detected signals by allowed type (defaulting to
`['buy', 'sell']`) and minimum strength (lines 371-395). -/
def eligibleSignals (req : BacktestRequest) (sigs : List Signal) : List Signal :=
  let allowed := req.signal_types.getD [SigType.buy, SigType.sell]
  sigs.filter (fun g =>
    allowed.contains g.signal_type &&
      decide (req.min_signal_strength ≤ g.signal_strength))

/-- Force-close of any still-open position at the final row's price and
date (lines 540-567). -/
def endOfBacktestClose (s : BState) (df : List IndRow) : BState :=
  match s.position with
  | some p =>
    match df.getLast? with
    | some lastRow => closeTrade s p lastRow.date lastRow.close
    | none => s
  | none => s

/-- Signal-based strategy backtest (`backtest_signal_based_strategy`, lines
257-599), from the indicator-augmented series to the final ledger state:
insufficient history or an empty signal scan short-circuit to the empty
result; otherwise the day loop runs over every row and any remaining
position is closed at the end. -/
def backtest_signal_based_strategy (req : BacktestRequest)
    (prices : List PricePoint) : BState :=
  let df := calculate_technical_indicators prices
  if df.length < 30 then initState req.initial_capital
  else
    let signalData := detect_trading_signals_for_backtest df 5
    if signalData = [] then initState req.initial_capital
    else
      let eligible := eligibleSignals req signalData
      endOfBacktestClose
        (df.foldl (signalDayStep req eligible) (initState req.initial_capital)) df

/-- Cross handling of one day of the MA cross strategy (lines 685-735):
golden cross with no open position buys (subject to the lot and capital
checks), death cross with an open position sells; `a`, `b` are the current
day's MA5/MA30 and `pa`, `pb` the previous day's. -/
def maCrossPart (req : BacktestRequest) (date : ℕ) (price : ℚ)
    (a b pa pb : ℚ) (s : BState) : BState :=
  if a > b ∧ pa ≤ pb ∧ s.position = none then
    let shares := lotShares req.shares_per_trade
    let cost := price * (shares : ℚ)
    if cost ≤ s.capital then
      { s with position := some ⟨date, price, shares⟩, capital := s.capital - cost }
    else s
  else if a < b ∧ pa ≥ pb ∧ s.position ≠ none then
    match s.position with
    | some p => closeTrade s p date price
    | none => s
  else s

/-- One day of the MA cross strategy (loop body, lines 673-765): skip the
day if any of the four MA cells is NaN, otherwise handle the cross and then
the hold-days check.  `pr` is the (previous row, current row) pair. -/
def maCrossDayStep (req : BacktestRequest) (s : BState) (pr : IndRow × IndRow) : BState :=
  match pr.2.ma5, pr.2.ma30, pr.1.ma5, pr.1.ma30 with
  | some a, some b, some pa, some pb =>
    holdDaysCheck req pr.2.date pr.2.close (maCrossPart req pr.2.date pr.2.close a b pa pb s)
  | _, _, _, _ => s

/-- MA cross strategy backtest (`backtest_ma_cross_strategy`, lines
601-817): the day loop runs from index 1 pairing each day with its
predecessor. -/
def backtest_ma_cross_strategy (req : BacktestRequest)
    (prices : List PricePoint) : BState :=
  let df := calculate_technical_indicators prices
  if df.length < 30 then initState req.initial_capital
  else
    endOfBacktestClose
      ((df.zip (df.drop 1)).foldl (maCrossDayStep req) (initState req.initial_capital)) df

/-! Equity curve and metrics (strategy_backtest.py lines 35-255). -/

/-- Total cost of the trades bought on day `d`. -/
def buyCostOn (trades : List BacktestTrade) (d : ℕ) : ℚ :=
  ((trades.filter (fun t => t.buy_date == d)).map
    (fun t => t.buy_price * (t.shares : ℚ))).sum

/-- Total proceeds of the trades sold on day `d`. -/
def sellProceedsOn (trades : List BacktestTrade) (d : ℕ) : ℚ :=
  ((trades.filter (fun t => t.sell_date == d)).map
    (fun t => t.sell_price * (t.shares : ℚ))).sum

/-- Equity curve (`_calculate_equity_curve`, lines 35-94): one point per
calendar day in `[startDate, endDate]`; each day first subtracts the cost
of that day's buys, then adds the proceeds of that day's sells, and records
the running capital.  The source walks a by-date dict of the trades; the
per-day net effect is the day's total buy cost and total sell proceeds,
and days absent from the dict contribute zero to both. -/
def calculate_equity_curve (trades : List BacktestTrade) (initialCapital : ℚ)
    (startDate endDate : ℕ) : List (ℕ × ℚ) :=
  ((List.range' startDate (endDate + 1 - startDate)).foldl
    (fun acc d =>
      let c := acc.2 - buyCostOn trades d + sellProceedsOn trades d
      (acc.1 ++ [(d, c)], c))
    (([] : List (ℕ × ℚ)), initialCapital)).1

/-- Loop of `_calculate_max_drawdown` (lines 108-119): running peak and
maximum drawdown fraction over the capital sequence. -/
def ddLoop : List ℚ → ℚ → ℚ → ℚ
  | [], _, maxDD => maxDD
  | c :: rest, peak, maxDD =>
    let peak2 := if c > peak then c else peak
    let dd := if 0 < peak2 then (peak2 - c) / peak2 else 0
    ddLoop rest peak2 (if dd > maxDD then dd else maxDD)

/-- Maximum drawdown of an equity curve in percent
(`_calculate_max_drawdown`, lines 96-119). -/
def calculate_max_drawdown (curve : List (ℕ × ℚ)) : ℚ :=
  if curve.length < 2 then 0
  else ddLoop (curve.map Prod.snd) ((curve.map Prod.snd).headD 0) 0 * 100

/-- Aggregate metrics of a run (`BacktestMetrics`).  The two metrics whose
values are transcendental over the rational inputs (the annualized return
rate's real exponent and the Sharpe ratio's square roots) are carried as
`Option ℝ`; every other field is exact rational data.  The field named
`sharpe_ratio` in the source is called `sharpe` here. -/
structure BacktestMetrics where
  initial_capital : ℚ
  final_capital : ℚ
  total_return : ℚ
  total_return_rate : ℚ
  annualized_return_rate : Option ℝ
  total_trades : ℕ
  successful_trades : ℕ
  failed_trades : ℕ
  win_rate : ℚ
  average_profit : ℚ
  max_profit : ℚ
  max_loss : ℚ
  max_drawdown : ℚ
  sharpe : Option ℝ
  profit_factor : Option ℚ

/-- Sharpe ratio (`_calculate_sharpe_ratio`, lines 121-160), real-valued:
`None` for fewer than two trades or zero return variance (the float test
`std == 0` holds exactly when the variance is zero); otherwise annualized
by the average hold duration.  Named `calculateSharpe`; noncomputable only
through the real square root. -/
noncomputable def calculateSharpe (trades : List BacktestTrade)
    (riskFree : ℝ) : Option ℝ :=
  if trades.length < 2 then none
  else
    let returns := trades.map (fun t => t.return_rate)
    let meanReturn : ℚ := returns.sum / (returns.length : ℚ)
    let variance : ℚ := ((returns.map (fun r => (r - meanReturn) ^ 2)).sum) / (returns.length : ℚ)
    if variance = 0 then none
    else
      let stdReturn : ℝ := Real.sqrt (variance : ℝ)
      let avgHold : ℚ := ((trades.map (fun t => (t.hold_days : ℚ))).sum) / (trades.length : ℚ)
      let annualizedReturn : ℝ := (meanReturn : ℝ) * ((252 : ℝ) / (avgHold : ℝ))
      let annualizedStd : ℝ := stdReturn * Real.sqrt ((252 : ℝ) / (avgHold : ℝ))
      if annualizedStd = 0 then none
      else some ((annualizedReturn - riskFree) / annualizedStd)

/-- Annualized return rate (lines 209-214), real-valued through the
`(final / initial) ** (1 / years)` real power. -/
noncomputable def annualizedReturn (finalCapital initialCapital : ℚ)
    (startDate endDate : ℕ) : Option ℝ :=
  let days : ℤ := (endDate : ℤ) - (startDate : ℤ)
  let years : ℝ := if 0 < days then (days : ℝ) / (36525 / 100 : ℝ) else 1
  if 0 < years ∧ 0 < initialCapital then
    some ((((finalCapital : ℝ) / (initialCapital : ℝ)) ^ ((1 : ℝ) / years) - 1) * 100)
  else none

/-- Maximum of a profit list (`max(profits) if profits else 0.0`). -/
def listMax (xs : List ℚ) : ℚ := xs.foldl max (xs.headD 0)

/-- Minimum of a profit list (`min(profits) if profits else 0.0`). -/
def listMin (xs : List ℚ) : ℚ := xs.foldl min (xs.headD 0)

/-- Performance metrics of a run (`_calculate_metrics`, lines 162-255).
With no trades every metric takes its zero/None default; otherwise the
final capital is the initial capital plus the summed trade profits, and the
rate statistics are derived from the trade ledger and the equity curve. -/
noncomputable def calculate_metrics (trades : List BacktestTrade)
    (initialCapital : ℚ) (curve : List (ℕ × ℚ)) (startDate endDate : ℕ) :
    BacktestMetrics :=
  if trades = [] then
    ⟨initialCapital, initialCapital, 0, 0, none, 0, 0, 0, 0, 0, 0, 0, 0, none, none⟩
  else
    let profits := trades.map (fun t => t.profit)
    let finalCapital := initialCapital + profits.sum
    let totalReturn := finalCapital - initialCapital
    let totalReturnRate := if 0 < initialCapital then totalReturn / initialCapital * 100 else 0
    let totalTrades := trades.length
    let successfulTrades := (trades.filter (fun t => decide (0 < t.profit))).length
    let failedTrades := totalTrades - successfulTrades
    let winRate : ℚ := if 0 < totalTrades then (successfulTrades : ℚ) / (totalTrades : ℚ) else 0
    let averageProfit := if profits = [] then 0 else profits.sum / (profits.length : ℚ)
    let totalProfitAmount := (profits.filter (fun p => decide (0 < p))).sum
    let totalLossAmount := |(profits.filter (fun p => decide (p < 0))).sum|
    let profitFactor := if 0 < totalLossAmount then some (totalProfitAmount / totalLossAmount) else none
    ⟨initialCapital, finalCapital, totalReturn, totalReturnRate,
     annualizedReturn finalCapital initialCapital startDate endDate,
     totalTrades, successfulTrades, failedTrades, winRate, averageProfit,
     listMax profits, listMin profits, calculate_max_drawdown curve,
     calculateSharpe trades (3/100), profitFactor⟩

/-! Specification-side helper definitions and concrete test series. -/

/-- Capital value the specification prescribes for day `d` of the equity
curve: the initial capital, minus each in-range trade's cost on its buy
date and plus its proceeds on its sell date, accumulated over the days from
`startDate` to `d`. -/
def equitySpecCapital (trades : List BacktestTrade) (initialCapital : ℚ)
    (startDate d : ℕ) : ℚ :=
  initialCapital + ((List.range' startDate (d + 1 - startDate)).map
    (fun e => sellProceedsOn trades e - buyCostOn trades e)).sum

/-- Capital locked in the open position, if any: the cost paid when it was
opened. -/
def posCost (s : BState) : ℚ :=
  match s.position with
  | some p => p.buy_price * (p.shares : ℚ)
  | none => 0

/-- A constant-OHLC price point with volume 1000, used by the concrete
test series. -/
def mkPP (d : ℕ) (c : ℚ) : PricePoint := ⟨d, c, c, c, c, 1000⟩

/-- Thirty-one days at a constant close of 100. -/
def flatPrices : List PricePoint := (List.range 31).map (fun i => mkPP i 100)

/-- Thirty days at 100 followed by a jump to 110: on the final day the MA
golden cross, the RSI overbought rule (RSI exactly 100) and the MACD cross
all fire at once. -/
def risePrices : List PricePoint :=
  (List.range 30).map (fun i => mkPP i 100) ++ [mkPP 30 110]

/-- Fourteen strictly rising closes 1, 2, ..., 14: at index 13 the
14-period average loss is zero while the average gain is positive. -/
def c4Prices : List PricePoint := (List.range 14).map (fun i => mkPP i ((i : ℚ) + 1))

/-- Default request: capital 100000, one lot per trade, no hold-days limit,
minimum strength 0.5, default signal-type filter. -/
def reqDefault : BacktestRequest := ⟨100000, 100, none, 1/2, none⟩

/-- Request with `shares_per_trade = 99`, below the lot size. -/
def reqSmallLot : BacktestRequest := ⟨100000, 99, none, 1/2, none⟩

/-- A concrete trade (buy day 2 at 50, sell day 4 at 60, 100 shares) used
to witness the equity-curve theorem. -/
def tradeC7 : BacktestTrade := ⟨1, 2, 50, 4, 60, 100, 1000, 20, 2⟩

/-! Theorems.  General-purpose lemmas first, then one theorem per claim
(with witnesses and counterexamples where required). -/

/-- Reading a list back off by index reproduces the list. -/
theorem getD_range_map {α : Type} [Inhabited α] (l : List α) :
    (List.range l.length).map (fun i => l.getD i default) = l := by
  apply List.ext_getElem
  · simp
  · intro i h1 h2
    simp [List.getD_eq_getElem?_getD, List.getElem?_eq_getElem h2]

/-- The engine carries every input price row through unchanged. -/
theorem engine_price_proj (prices : List PricePoint) :
    (calculate_technical_indicators prices).map IndRow.price = prices := by
  have h : (calculate_technical_indicators prices).map IndRow.price
      = (List.range prices.length).map (fun i => prices.getD i default) := by
    unfold calculate_technical_indicators
    simp [List.map_map, Function.comp, IndRow.price]
  rw [h]
  exact getD_range_map prices

/-- The engine preserves the date column. -/
theorem engine_date_proj (prices : List PricePoint) :
    (calculate_technical_indicators prices).map IndRow.date
      = prices.map PricePoint.date := by
  have h : (calculate_technical_indicators prices).map IndRow.date
      = ((calculate_technical_indicators prices).map IndRow.price).map PricePoint.date := by
    rw [List.map_map]
    rfl
  rw [h, engine_price_proj]

/-- C8: the Indicator Engine is a pure function: it leaves its input series
unchanged (every output row carries its input row verbatim in the price
fields), and running it twice on the same input yields identical output. -/
theorem C8_engine_pure (prices : List PricePoint) :
    (calculate_technical_indicators prices).map IndRow.price = prices ∧
    calculate_technical_indicators prices = calculate_technical_indicators prices :=
  ⟨engine_price_proj prices, rfl⟩

/-- C6: a backtest with zero trades yields the all-default metrics record —
final capital equals initial capital, zero return, rate, win and profit
statistics and drawdown, `None` annualized return, Sharpe ratio and profit
factor — and no error is possible (`calculate_metrics` is total). -/
theorem C6_zero_trades (initialCapital : ℚ) (curve : List (ℕ × ℚ))
    (startDate endDate : ℕ) :
    (calculate_metrics [] initialCapital curve startDate endDate).total_trades = 0 ∧
    (calculate_metrics [] initialCapital curve startDate endDate).initial_capital = initialCapital ∧
    (calculate_metrics [] initialCapital curve startDate endDate).final_capital = initialCapital ∧
    (calculate_metrics [] initialCapital curve startDate endDate).total_return = 0 ∧
    (calculate_metrics [] initialCapital curve startDate endDate).total_return_rate = 0 ∧
    (calculate_metrics [] initialCapital curve startDate endDate).successful_trades = 0 ∧
    (calculate_metrics [] initialCapital curve startDate endDate).failed_trades = 0 ∧
    (calculate_metrics [] initialCapital curve startDate endDate).win_rate = 0 ∧
    (calculate_metrics [] initialCapital curve startDate endDate).average_profit = 0 ∧
    (calculate_metrics [] initialCapital curve startDate endDate).max_profit = 0 ∧
    (calculate_metrics [] initialCapital curve startDate endDate).max_loss = 0 ∧
    (calculate_metrics [] initialCapital curve startDate endDate).max_drawdown = 0 ∧
    (calculate_metrics [] initialCapital curve startDate endDate).annualized_return_rate = none ∧
    (calculate_metrics [] initialCapital curve startDate endDate).sharpe = none ∧
    (calculate_metrics [] initialCapital curve startDate endDate).profit_factor = none := by
  exact ⟨rfl, rfl, rfl, rfl, rfl, rfl, rfl, rfl, rfl, rfl, rfl, rfl, rfl, rfl, rfl⟩

/-- C3: the RSI signal strength is stepped by depth of breach: a buy fires
at 0.9 below RSI 20, at 0.8 below 25, and linearly between 0.6 and 0.8 on
the line through (30, 0.6) and (20, 0.8) below 30; the sell side is
symmetric at the 80 / 75 / 70 thresholds; outside the breach bands the
fall-through value is 0.5. -/
theorem C3_rsi_strength (r : ℚ) :
    calculate_rsi_signal_strength r .buy =
      (if r < 20 then 9/10
       else if r < 25 then 8/10
       else if r < 30 then 6/10 + (30 - r) * (1/50)
       else 1/2) ∧
    calculate_rsi_signal_strength r .sell =
      (if 80 < r then 9/10
       else if 75 < r then 8/10
       else if 70 < r then 6/10 + (r - 70) * (1/50)
       else 1/2) := by
  constructor
  · simp only [calculate_rsi_signal_strength]
    split_ifs <;> ring
  · simp only [calculate_rsi_signal_strength]
    split_ifs <;> ring

/-- Row `i` of the engine output, in closed form. -/
theorem calc_row (prices : List PricePoint) (i : ℕ) (hi : i < prices.length) :
    ((calculate_technical_indicators prices).getD i default).rsi
      = rsiAt (prices.map PricePoint.close) i := by
  unfold calculate_technical_indicators
  simp [List.getD_eq_getElem?_getD, List.getElem?_map, List.getElem?_range, hi]

/-- C4 (amended): the computed RSI cell is undefined exactly on the NaN
case of the float quotient: with a zero 14-period average loss it is
undefined when the average gain is also zero, but takes the defined value
100 when the average gain is positive (no error in either case). -/
theorem C4_rsi_undefined (prices : List PricePoint) (i : ℕ) (g : ℚ)
    (hi : i < prices.length)
    (hl : avgLossAt (prices.map PricePoint.close) i = some 0)
    (hg : avgGainAt (prices.map PricePoint.close) i = some g) :
    ((calculate_technical_indicators prices).getD i default).rsi
      = if g = 0 then none else some 100 := by
  rw [calc_row prices i hi]
  simp [rsiAt, hl, hg, rsiVal]

section ConcreteEvaluation

attribute [local semireducible] Rat.mul Rat.inv Rat.add Rat.sub

set_option maxRecDepth 1000000

/-- C4 counterexample: on the strictly rising series the 14-period average
loss at index 13 is zero, yet the computed RSI there is the defined value
100, not undefined — refuting the claim that a zero average loss always
makes the RSI undefined. -/
theorem C4_counterexample :
    avgLossAt (c4Prices.map PricePoint.close) 13 = some 0 ∧
    ((calculate_technical_indicators c4Prices).getD 13 default).rsi = some 100 := by
  decide

/-- Witness for the amended C4 theorem at the rising series, average gain
13/14. -/
theorem C4_witness :
    ((calculate_technical_indicators c4Prices).getD 13 default).rsi = some 100 := by
  have h := C4_rsi_undefined c4Prices 13 (13/14) (by decide) (by decide) (by decide)
  simpa using h

end ConcreteEvaluation

/-- Fold preservation of an invariant. -/
theorem foldlPreserve {α σ : Type} (f : σ → α → σ) (P : σ → Prop)
    (h : ∀ s a, P s → P (f s a)) : ∀ (l : List α) (s : σ), P s → P (l.foldl f s)
  | [], _, hs => hs
  | a :: l, s, hs => foldlPreserve f P h l (f s a) (h s a hs)

/-- Equation: a buy signal processed with an open position is a no-op. -/
theorem processSignal_buy_open (req : BacktestRequest) (date : ℕ) (price : ℚ)
    (s : BState) (sig : Signal) (p : Position)
    (hst : sig.signal_type = SigType.buy) (hpos : s.position = some p) :
    processSignal req date price s sig = s := by
  simp [processSignal, hst, hpos]

/-- Equation: a sell signal processed with no open position is a no-op. -/
theorem processSignal_sell_flat (req : BacktestRequest) (date : ℕ) (price : ℚ)
    (s : BState) (sig : Signal)
    (hst : sig.signal_type = SigType.sell) (hpos : s.position = none) :
    processSignal req date price s sig = s := by
  simp [processSignal, hst, hpos]

/-- Equation: a hold signal is never traded on. -/
theorem processSignal_hold (req : BacktestRequest) (date : ℕ) (price : ℚ)
    (s : BState) (sig : Signal) (hst : sig.signal_type = SigType.hold) :
    processSignal req date price s sig = s := by
  unfold processSignal
  rw [hst]

/-- Equation: a buy signal processed while flat applies the lot rounding
and the capital-sufficiency check. -/
theorem processSignal_buy_flat (req : BacktestRequest) (date : ℕ) (price : ℚ)
    (s : BState) (sig : Signal)
    (hst : sig.signal_type = SigType.buy) (hpos : s.position = none) :
    processSignal req date price s sig =
      (if price * (lotShares req.shares_per_trade : ℚ) ≤ s.capital then
        { s with position := some ⟨date, price, lotShares req.shares_per_trade⟩,
                 capital := s.capital - price * (lotShares req.shares_per_trade : ℚ) }
      else s) := by
  simp [processSignal, hst, hpos]

/-- Equation: a sell signal processed with an open position closes it. -/
theorem processSignal_sell_open (req : BacktestRequest) (date : ℕ) (price : ℚ)
    (s : BState) (sig : Signal) (p : Position)
    (hst : sig.signal_type = SigType.sell) (hpos : s.position = some p) :
    processSignal req date price s sig = closeTrade s p date price := by
  simp [processSignal, hst, hpos]

/-- Equation: the hold-days check does nothing while flat. -/
theorem holdCheck_flat (req : BacktestRequest) (date : ℕ) (price : ℚ)
    (s : BState) (hpos : s.position = none) :
    holdDaysCheck req date price s = s := by
  unfold holdDaysCheck
  rw [hpos]

/-- Equation: the hold-days check does nothing without a hold-days limit. -/
theorem holdCheck_noLimit (req : BacktestRequest) (date : ℕ) (price : ℚ)
    (s : BState) (hd : req.hold_days = none) :
    holdDaysCheck req date price s = s := by
  unfold holdDaysCheck
  rw [hd]
  cases s.position <;> rfl

/-- Equation: the hold-days check with an open position and a limit. -/
theorem holdCheck_open (req : BacktestRequest) (date : ℕ) (price : ℚ)
    (s : BState) (p : Position) (h : ℕ)
    (hpos : s.position = some p) (hd : req.hold_days = some h) :
    holdDaysCheck req date price s =
      (if (h : ℤ) ≤ (date : ℤ) - (p.buy_date : ℤ) then closeTrade s p date price
       else s) := by
  simp [holdDaysCheck, hpos, hd]

/-- Equation: the end-of-backtest close does nothing while flat. -/
theorem endClose_flat (s : BState) (df : List IndRow) (hpos : s.position = none) :
    endOfBacktestClose s df = s := by
  unfold endOfBacktestClose
  rw [hpos]

/-- Equation: the end-of-backtest close closes an open position at the last
row. -/
theorem endClose_open (s : BState) (df : List IndRow) (p : Position)
    (lastRow : IndRow) (hpos : s.position = some p)
    (hlast : df.getLast? = some lastRow) :
    endOfBacktestClose s df = closeTrade s p lastRow.date lastRow.close := by
  unfold endOfBacktestClose
  rw [hpos, hlast]

/-- C5: the backtester keeps at most one position (the state holds an
`Option Position`), a buy processed while a position is open leaves the
state — position, capital, ledger — untouched, and a sell processed while
no position is open likewise; both for the signal-based per-signal step and
for the MA cross strategy's cross handling. -/
theorem C5_single_position (req : BacktestRequest) :
    (∀ (date : ℕ) (price : ℚ) (s : BState) (sig : Signal) (p : Position),
      sig.signal_type = SigType.buy → s.position = some p →
      processSignal req date price s sig = s) ∧
    (∀ (date : ℕ) (price : ℚ) (s : BState) (sig : Signal),
      sig.signal_type = SigType.sell → s.position = none →
      processSignal req date price s sig = s) ∧
    (∀ (date : ℕ) (price : ℚ) (a b pa pb : ℚ) (s : BState) (p : Position),
      b < a → pa ≤ pb → s.position = some p →
      maCrossPart req date price a b pa pb s = s) ∧
    (∀ (date : ℕ) (price : ℚ) (a b pa pb : ℚ) (s : BState),
      a < b → pb ≤ pa → s.position = none →
      maCrossPart req date price a b pa pb s = s) := by
  refine ⟨?_, ?_, ?_, ?_⟩
  · exact fun date price s sig p hst hpos =>
      processSignal_buy_open req date price s sig p hst hpos
  · exact fun date price s sig hst hpos =>
      processSignal_sell_flat req date price s sig hst hpos
  · intro date price a b pa pb s p hab hpp hpos
    have h1 : ¬(a > b ∧ pa ≤ pb ∧ s.position = none) := by
      rw [hpos]
      rintro ⟨-, -, h⟩
      exact Option.noConfusion h
    have h2 : ¬(a < b ∧ pa ≥ pb ∧ s.position ≠ none) := by
      rintro ⟨h, -, -⟩
      exact absurd h (not_lt.2 hab.le)
    unfold maCrossPart
    rw [if_neg h1, if_neg h2]
  · intro date price a b pa pb s hab hpp hpos
    have h1 : ¬(a > b ∧ pa ≤ pb ∧ s.position = none) := by
      rintro ⟨h, -, -⟩
      exact absurd h (not_lt.2 hab.le)
    have h2 : ¬(a < b ∧ pa ≥ pb ∧ s.position ≠ none) := by
      rintro ⟨-, -, h⟩
      exact h hpos
    unfold maCrossPart
    rw [if_neg h1, if_neg h2]

/-- Closing a zero-share position neither moves capital nor records a trade
with nonzero shares or profit. -/
theorem closeTrade_zero (c0 : ℚ) (s : BState) (p : Position) (date : ℕ) (price : ℚ)
    (h1 : s.capital = c0) (h3 : ∀ t ∈ s.trades, t.shares = 0 ∧ t.profit = 0)
    (hp : p.shares = 0) :
    (closeTrade s p date price).capital = c0 ∧
    (∀ q, (closeTrade s p date price).position = some q → q.shares = 0) ∧
    (∀ t ∈ (closeTrade s p date price).trades, t.shares = 0 ∧ t.profit = 0) := by
  refine ⟨by simp [closeTrade, hp, h1], by simp [closeTrade], ?_⟩
  intro t ht
  simp only [closeTrade, List.mem_append, List.mem_singleton] at ht
  rcases ht with ht | rfl
  · exact h3 t ht
  · simp [hp]

/-- One signal step preserves the zero-lot invariant. -/
theorem processSignal_zero (req : BacktestRequest) (c0 : ℚ) (date : ℕ) (price : ℚ)
    (hlot : lotShares req.shares_per_trade = 0) (s : BState) (sig : Signal)
    (hs : s.capital = c0 ∧ (∀ q, s.position = some q → q.shares = 0) ∧
      (∀ t ∈ s.trades, t.shares = 0 ∧ t.profit = 0)) :
    (processSignal req date price s sig).capital = c0 ∧
    (∀ q, (processSignal req date price s sig).position = some q → q.shares = 0) ∧
    (∀ t ∈ (processSignal req date price s sig).trades, t.shares = 0 ∧ t.profit = 0) := by
  obtain ⟨h1, h2, h3⟩ := hs
  cases hst : sig.signal_type with
  | buy =>
    cases hpos : s.position with
    | none =>
      rw [processSignal_buy_flat req date price s sig hst hpos, hlot]
      simp only [Nat.cast_zero, mul_zero]
      split_ifs with hc
      · refine ⟨by simp [h1], ?_, h3⟩
        intro q hq
        simp only [Option.some.injEq] at hq
        rw [← hq]
      · exact ⟨h1, h2, h3⟩
    | some p =>
      rw [processSignal_buy_open req date price s sig p hst hpos]
      exact ⟨h1, h2, h3⟩
  | sell =>
    cases hpos : s.position with
    | none =>
      rw [processSignal_sell_flat req date price s sig hst hpos]
      exact ⟨h1, h2, h3⟩
    | some p =>
      rw [processSignal_sell_open req date price s sig p hst hpos]
      exact closeTrade_zero c0 s p date price h1 h3 (h2 p hpos)
  | hold =>
    rw [processSignal_hold req date price s sig hst]
    exact ⟨h1, h2, h3⟩

/-- The hold-days check preserves the zero-lot invariant. -/
theorem holdCheck_zero (req : BacktestRequest) (c0 : ℚ) (date : ℕ) (price : ℚ)
    (s : BState)
    (hs : s.capital = c0 ∧ (∀ q, s.position = some q → q.shares = 0) ∧
      (∀ t ∈ s.trades, t.shares = 0 ∧ t.profit = 0)) :
    (holdDaysCheck req date price s).capital = c0 ∧
    (∀ q, (holdDaysCheck req date price s).position = some q → q.shares = 0) ∧
    (∀ t ∈ (holdDaysCheck req date price s).trades, t.shares = 0 ∧ t.profit = 0) := by
  obtain ⟨h1, h2, h3⟩ := hs
  cases hpos : s.position with
  | none =>
    rw [holdCheck_flat req date price s hpos]
    exact ⟨h1, h2, h3⟩
  | some p =>
    cases hd : req.hold_days with
    | none =>
      rw [holdCheck_noLimit req date price s hd]
      exact ⟨h1, h2, h3⟩
    | some hdays =>
      rw [holdCheck_open req date price s p hdays hpos hd]
      split_ifs with hcond
      · exact closeTrade_zero c0 s p date price h1 h3 (h2 p hpos)
      · exact ⟨h1, h2, h3⟩

/-- The end-of-backtest close preserves the zero-lot invariant. -/
theorem endClose_zero (c0 : ℚ) (s : BState) (df : List IndRow)
    (hs : s.capital = c0 ∧ (∀ q, s.position = some q → q.shares = 0) ∧
      (∀ t ∈ s.trades, t.shares = 0 ∧ t.profit = 0)) :
    (endOfBacktestClose s df).capital = c0 ∧
    (∀ q, (endOfBacktestClose s df).position = some q → q.shares = 0) ∧
    (∀ t ∈ (endOfBacktestClose s df).trades, t.shares = 0 ∧ t.profit = 0) := by
  obtain ⟨h1, h2, h3⟩ := hs
  cases hpos : s.position with
  | none =>
    rw [endClose_flat s df hpos]
    exact ⟨h1, h2, h3⟩
  | some p =>
    cases hlast : df.getLast? with
    | none =>
      unfold endOfBacktestClose
      rw [hpos, hlast]
      exact ⟨h1, fun q hq => h2 q (hpos ▸ hq), h3⟩
    | some lastRow =>
      rw [endClose_open s df p lastRow hpos hlast]
      exact closeTrade_zero c0 s p lastRow.date lastRow.close h1 h3 (h2 p hpos)

/-- One day of the signal-based strategy preserves the zero-lot invariant. -/
theorem signalDayStep_zero (req : BacktestRequest) (eligible : List Signal) (c0 : ℚ)
    (hlot : lotShares req.shares_per_trade = 0) (s : BState) (row : IndRow)
    (hs : s.capital = c0 ∧ (∀ q, s.position = some q → q.shares = 0) ∧
      (∀ t ∈ s.trades, t.shares = 0 ∧ t.profit = 0)) :
    (signalDayStep req eligible s row).capital = c0 ∧
    (∀ q, (signalDayStep req eligible s row).position = some q → q.shares = 0) ∧
    (∀ t ∈ (signalDayStep req eligible s row).trades, t.shares = 0 ∧ t.profit = 0) := by
  simp only [signalDayStep]
  split_ifs with h
  · exact hs
  · exact holdCheck_zero req c0 row.date row.close _
      (foldlPreserve (processSignal req row.date row.close)
        (fun s2 => s2.capital = c0 ∧ (∀ q, s2.position = some q → q.shares = 0) ∧
          (∀ t ∈ s2.trades, t.shares = 0 ∧ t.profit = 0))
        (fun s2 sig hs2 => processSignal_zero req c0 row.date row.close hlot s2 sig hs2)
        _ s hs)

/-- The cross handling of the MA cross strategy preserves the zero-lot
invariant. -/
theorem maCrossPart_zero (req : BacktestRequest) (c0 : ℚ) (date : ℕ) (price : ℚ)
    (a b pa pb : ℚ) (hlot : lotShares req.shares_per_trade = 0) (s : BState)
    (hs : s.capital = c0 ∧ (∀ q, s.position = some q → q.shares = 0) ∧
      (∀ t ∈ s.trades, t.shares = 0 ∧ t.profit = 0)) :
    (maCrossPart req date price a b pa pb s).capital = c0 ∧
    (∀ q, (maCrossPart req date price a b pa pb s).position = some q → q.shares = 0) ∧
    (∀ t ∈ (maCrossPart req date price a b pa pb s).trades, t.shares = 0 ∧ t.profit = 0) := by
  obtain ⟨h1, h2, h3⟩ := hs
  simp only [maCrossPart, hlot, Nat.cast_zero, mul_zero]
  split_ifs with hbuy hc hsell
  · refine ⟨by simp [h1], ?_, h3⟩
    intro q hq
    simp only [Option.some.injEq] at hq
    rw [← hq]
  · exact ⟨h1, h2, h3⟩
  · rcases hpos : s.position with _ | p
    · exact absurd hpos hsell.2.2
    · exact closeTrade_zero c0 s p date price h1 h3 (h2 p hpos)
  · exact ⟨h1, h2, h3⟩

/-- One day of the MA cross strategy preserves the zero-lot invariant. -/
theorem maCrossDayStep_zero (req : BacktestRequest) (c0 : ℚ)
    (hlot : lotShares req.shares_per_trade = 0) (s : BState) (pr : IndRow × IndRow)
    (hs : s.capital = c0 ∧ (∀ q, s.position = some q → q.shares = 0) ∧
      (∀ t ∈ s.trades, t.shares = 0 ∧ t.profit = 0)) :
    (maCrossDayStep req s pr).capital = c0 ∧
    (∀ q, (maCrossDayStep req s pr).position = some q → q.shares = 0) ∧
    (∀ t ∈ (maCrossDayStep req s pr).trades, t.shares = 0 ∧ t.profit = 0) := by
  unfold maCrossDayStep
  rcases h5 : pr.2.ma5 with _ | a <;> rcases h30 : pr.2.ma30 with _ | b <;>
    rcases hp5 : pr.1.ma5 with _ | pa <;> rcases hp30 : pr.1.ma30 with _ | pb <;>
    first
      | exact hs
      | exact holdCheck_zero req c0 pr.2.date pr.2.close _
          (maCrossPart_zero req c0 pr.2.date pr.2.close a b pa pb hlot s hs)

/-- A full signal-based run preserves the zero-lot invariant. -/
theorem runSignal_zero (req : BacktestRequest) (c0 : ℚ)
    (hlot : lotShares req.shares_per_trade = 0) (eligible : List Signal)
    (df : List IndRow) :
    (endOfBacktestClose (df.foldl (signalDayStep req eligible) (initState c0)) df).capital = c0 ∧
    (∀ t ∈ (endOfBacktestClose (df.foldl (signalDayStep req eligible) (initState c0)) df).trades,
      t.shares = 0 ∧ t.profit = 0) := by
  have h := endClose_zero c0 (df.foldl (signalDayStep req eligible) (initState c0)) df
    (foldlPreserve (signalDayStep req eligible)
      (fun s2 => s2.capital = c0 ∧ (∀ q, s2.position = some q → q.shares = 0) ∧
        (∀ t ∈ s2.trades, t.shares = 0 ∧ t.profit = 0))
      (fun s2 row hs2 => signalDayStep_zero req eligible c0 hlot s2 row hs2)
      df (initState c0) ⟨rfl, by simp [initState], by simp [initState]⟩)
  exact ⟨h.1, h.2.2⟩

/-- A full MA cross run preserves the zero-lot invariant. -/
theorem runMaCross_zero (req : BacktestRequest) (c0 : ℚ)
    (hlot : lotShares req.shares_per_trade = 0) (prs : List (IndRow × IndRow))
    (df : List IndRow) :
    (endOfBacktestClose (prs.foldl (maCrossDayStep req) (initState c0)) df).capital = c0 ∧
    (∀ t ∈ (endOfBacktestClose (prs.foldl (maCrossDayStep req) (initState c0)) df).trades,
      t.shares = 0 ∧ t.profit = 0) := by
  have h := endClose_zero c0 (prs.foldl (maCrossDayStep req) (initState c0)) df
    (foldlPreserve (maCrossDayStep req)
      (fun s2 => s2.capital = c0 ∧ (∀ q, s2.position = some q → q.shares = 0) ∧
        (∀ t ∈ s2.trades, t.shares = 0 ∧ t.profit = 0))
      (fun s2 pr hs2 => maCrossDayStep_zero req c0 hlot s2 pr hs2)
      prs (initState c0) ⟨rfl, by simp [initState], by simp [initState]⟩)
  exact ⟨h.1, h.2.2⟩

/-- C9: with `shares_per_trade` below the lot size 100 the lot rounds down
to zero shares, so a buy while flat is still accepted (cost 0 passes the
capital check trivially) and opens a zero-share position; every recorded
trade of either strategy has zero shares and zero profit, and the capital
ledger never moves. -/
theorem C9_zero_lot (req : BacktestRequest) (prices : List PricePoint)
    (hs : req.shares_per_trade < 100) :
    ((backtest_signal_based_strategy req prices).capital = req.initial_capital ∧
      ∀ t ∈ (backtest_signal_based_strategy req prices).trades, t.shares = 0 ∧ t.profit = 0) ∧
    ((backtest_ma_cross_strategy req prices).capital = req.initial_capital ∧
      ∀ t ∈ (backtest_ma_cross_strategy req prices).trades, t.shares = 0 ∧ t.profit = 0) ∧
    (∀ (date : ℕ) (price : ℚ) (s : BState) (sig : Signal),
      sig.signal_type = SigType.buy → s.position = none → 0 ≤ s.capital →
      processSignal req date price s sig = { s with position := some ⟨date, price, 0⟩ }) := by
  have hlot : lotShares req.shares_per_trade = 0 := by
    unfold lotShares
    omega
  refine ⟨?_, ?_, ?_⟩
  · simp only [backtest_signal_based_strategy]
    split_ifs with hlen hsig
    · exact ⟨rfl, by simp [initState]⟩
    · exact ⟨rfl, by simp [initState]⟩
    · exact runSignal_zero req req.initial_capital hlot _ _
  · simp only [backtest_ma_cross_strategy]
    split_ifs with hlen
    · exact ⟨rfl, by simp [initState]⟩
    · exact runMaCross_zero req req.initial_capital hlot _ _
  · intro date price s sig hst hpos hcap
    rw [processSignal_buy_flat req date price s sig hst hpos, hlot]
    simp only [Nat.cast_zero, mul_zero]
    rw [if_pos hcap]
    simp

section ConcreteWitnesses

attribute [local semireducible] Rat.mul Rat.inv Rat.add Rat.sub

set_option maxRecDepth 1000000

/-- Witness for C5: concrete buy-while-open and sell-while-flat signals,
and concrete crosses, all leave a concrete state unchanged. -/
theorem C5_single_position_witness :
    processSignal reqDefault 7 105 ⟨1000, some ⟨3, 50, 100⟩, [], 1⟩ ⟨.buy, 1, 7, .maF⟩
      = ⟨1000, some ⟨3, 50, 100⟩, [], 1⟩ ∧
    processSignal reqDefault 7 105 ⟨1000, none, [], 1⟩ ⟨.sell, 1, 7, .maF⟩
      = ⟨1000, none, [], 1⟩ ∧
    maCrossPart reqDefault 7 105 102 100 99 100 ⟨1000, some ⟨3, 50, 100⟩, [], 1⟩
      = ⟨1000, some ⟨3, 50, 100⟩, [], 1⟩ ∧
    maCrossPart reqDefault 7 105 100 102 100 99 ⟨1000, none, [], 1⟩
      = ⟨1000, none, [], 1⟩ := by
  refine ⟨?_, ?_, ?_, ?_⟩
  · exact (C5_single_position reqDefault).1 7 105 _ _ ⟨3, 50, 100⟩ rfl rfl
  · exact (C5_single_position reqDefault).2.1 7 105 _ _ rfl rfl
  · exact (C5_single_position reqDefault).2.2.1 7 105 102 100 99 100 _ ⟨3, 50, 100⟩
      (by norm_num) (by norm_num) rfl
  · exact (C5_single_position reqDefault).2.2.2 7 105 100 102 100 99 _
      (by norm_num) (by norm_num) rfl

/-- Witness for C9 at the rising series with `shares_per_trade = 99`. -/
theorem C9_zero_lot_witness :
    (backtest_signal_based_strategy reqSmallLot risePrices).capital = 100000 ∧
    (backtest_ma_cross_strategy reqSmallLot risePrices).capital = 100000 := by
  have h := C9_zero_lot reqSmallLot risePrices (by decide)
  exact ⟨h.1.1, h.2.1.1⟩

end ConcreteWitnesses

/-- Closing the open position moves the ledger by exactly the recorded
trade's proceeds: the running-capital identity is preserved. -/
theorem closeTrade_led (c0 : ℚ) (s : BState) (p : Position) (date : ℕ) (price : ℚ)
    (hpos : s.position = some p)
    (h : s.capital = c0 + ((s.trades.map (fun t => t.profit)).sum) - posCost s) :
    (closeTrade s p date price).capital
      = c0 + (((closeTrade s p date price).trades.map (fun t => t.profit)).sum)
        - posCost (closeTrade s p date price) := by
  simp only [posCost, hpos] at h
  simp only [closeTrade, posCost, List.map_append, List.sum_append, List.map_cons,
    List.map_nil, List.sum_cons, List.sum_nil]
  rw [h]
  ring

/-- One signal step preserves the running-capital identity. -/
theorem processSignal_led (req : BacktestRequest) (c0 : ℚ) (date : ℕ) (price : ℚ)
    (s : BState) (sig : Signal)
    (h : s.capital = c0 + ((s.trades.map (fun t => t.profit)).sum) - posCost s) :
    (processSignal req date price s sig).capital
      = c0 + (((processSignal req date price s sig).trades.map (fun t => t.profit)).sum)
        - posCost (processSignal req date price s sig) := by
  cases hst : sig.signal_type with
  | buy =>
    cases hpos : s.position with
    | none =>
      rw [processSignal_buy_flat req date price s sig hst hpos]
      split_ifs with hc
      · simp only [posCost, hpos] at h
        simp only [posCost]
        rw [h]
        ring
      · exact h
    | some p =>
      rw [processSignal_buy_open req date price s sig p hst hpos]
      exact h
  | sell =>
    cases hpos : s.position with
    | none =>
      rw [processSignal_sell_flat req date price s sig hst hpos]
      exact h
    | some p =>
      rw [processSignal_sell_open req date price s sig p hst hpos]
      exact closeTrade_led c0 s p date price hpos h
  | hold =>
    rw [processSignal_hold req date price s sig hst]
    exact h

/-- The hold-days check preserves the running-capital identity. -/
theorem holdCheck_led (req : BacktestRequest) (c0 : ℚ) (date : ℕ) (price : ℚ)
    (s : BState)
    (h : s.capital = c0 + ((s.trades.map (fun t => t.profit)).sum) - posCost s) :
    (holdDaysCheck req date price s).capital
      = c0 + (((holdDaysCheck req date price s).trades.map (fun t => t.profit)).sum)
        - posCost (holdDaysCheck req date price s) := by
  cases hpos : s.position with
  | none =>
    rw [holdCheck_flat req date price s hpos]
    exact h
  | some p =>
    cases hd : req.hold_days with
    | none =>
      rw [holdCheck_noLimit req date price s hd]
      exact h
    | some hdays =>
      rw [holdCheck_open req date price s p hdays hpos hd]
      split_ifs with hcond
      · exact closeTrade_led c0 s p date price hpos h
      · exact h

/-- One day of the signal-based strategy preserves the running-capital
identity. -/
theorem signalDayStep_led (req : BacktestRequest) (eligible : List Signal) (c0 : ℚ)
    (s : BState) (row : IndRow)
    (h : s.capital = c0 + ((s.trades.map (fun t => t.profit)).sum) - posCost s) :
    (signalDayStep req eligible s row).capital
      = c0 + (((signalDayStep req eligible s row).trades.map (fun t => t.profit)).sum)
        - posCost (signalDayStep req eligible s row) := by
  simp only [signalDayStep]
  split_ifs with hd
  · exact h
  · exact holdCheck_led req c0 row.date row.close _
      (foldlPreserve (processSignal req row.date row.close)
        (fun s2 => s2.capital = c0 + ((s2.trades.map (fun t => t.profit)).sum) - posCost s2)
        (fun s2 sig hs2 => processSignal_led req c0 row.date row.close s2 sig hs2)
        _ s h)

/-- The end-of-backtest close empties the position and, with nothing locked
any more, the running-capital identity gives the final capital directly. -/
theorem endClose_led (c0 : ℚ) (s : BState) (df : List IndRow) (hdf : df ≠ [])
    (h : s.capital = c0 + ((s.trades.map (fun t => t.profit)).sum) - posCost s) :
    (endOfBacktestClose s df).position = none ∧
    (endOfBacktestClose s df).capital
      = c0 + (((endOfBacktestClose s df).trades.map (fun t => t.profit)).sum) := by
  cases hpos : s.position with
  | none =>
    rw [endClose_flat s df hpos]
    refine ⟨hpos, ?_⟩
    simpa only [posCost, hpos, sub_zero] using h
  | some p =>
    cases hlast : df.getLast? with
    | none => exact absurd (List.getLast?_eq_none_iff.mp hlast) hdf
    | some lastRow =>
      rw [endClose_open s df p lastRow hpos hlast]
      have hclose := closeTrade_led c0 s p lastRow.date lastRow.close hpos h
      refine ⟨by simp [closeTrade], ?_⟩
      simpa only [posCost, closeTrade, sub_zero] using hclose

/-- A full signal-based run ends flat with the running capital equal to the
initial capital plus the summed profits. -/
theorem runSignal_led (req : BacktestRequest) (c0 : ℚ) (eligible : List Signal)
    (df : List IndRow) (hdf : df ≠ []) :
    (endOfBacktestClose (df.foldl (signalDayStep req eligible) (initState c0)) df).position = none ∧
    (endOfBacktestClose (df.foldl (signalDayStep req eligible) (initState c0)) df).capital
      = c0 + (((endOfBacktestClose (df.foldl (signalDayStep req eligible) (initState c0)) df).trades.map
          (fun t => t.profit)).sum) := by
  refine endClose_led c0 _ df hdf
    (foldlPreserve (signalDayStep req eligible)
      (fun s2 => s2.capital = c0 + ((s2.trades.map (fun t => t.profit)).sum) - posCost s2)
      (fun s2 row hs2 => signalDayStep_led req eligible c0 s2 row hs2)
      df (initState c0) (by simp [initState, posCost]))

/-- C10: a signal-based backtest run ends with no open position, its final
running capital is the initial capital plus the summed profits of the
recorded trades, and that is exactly the `final_capital` the metrics
computation derives from the trade list alone. -/
theorem C10_final_capital (req : BacktestRequest) (prices : List PricePoint)
    (curve : List (ℕ × ℚ)) (startDate endDate : ℕ) :
    (backtest_signal_based_strategy req prices).position = none ∧
    (backtest_signal_based_strategy req prices).capital
      = req.initial_capital
        + (((backtest_signal_based_strategy req prices).trades.map (fun t => t.profit)).sum) ∧
    (calculate_metrics (backtest_signal_based_strategy req prices).trades
      req.initial_capital curve startDate endDate).final_capital
      = (backtest_signal_based_strategy req prices).capital := by
  have hmain : (backtest_signal_based_strategy req prices).position = none ∧
      (backtest_signal_based_strategy req prices).capital
        = req.initial_capital
          + (((backtest_signal_based_strategy req prices).trades.map (fun t => t.profit)).sum) := by
    simp only [backtest_signal_based_strategy]
    split_ifs with hlen hsig
    · exact ⟨rfl, by simp [initState]⟩
    · exact ⟨rfl, by simp [initState]⟩
    · refine runSignal_led req req.initial_capital _ _ ?_
      intro hnil
      rw [hnil] at hlen
      simp at hlen
  refine ⟨hmain.1, hmain.2, ?_⟩
  rcases htr : (backtest_signal_based_strategy req prices).trades with _ | ⟨t, ts⟩
  · have hcap : (backtest_signal_based_strategy req prices).capital = req.initial_capital := by
      rw [hmain.2, htr]
      simp
    rw [hcap]
    rfl
  · have hne : (t :: ts : List BacktestTrade) ≠ [] := by simp
    simp only [calculate_metrics, if_neg hne]
    rw [hmain.2, htr]

/-- Closing at a date no earlier than the position's buy date records a
date-ordered trade and empties the position. -/
theorem closeTrade_dates (s : BState) (p : Position) (date : ℕ) (price : ℚ)
    (hts : ∀ t ∈ s.trades, t.buy_date ≤ t.sell_date) (hp : p.buy_date ≤ date) :
    (∀ t ∈ (closeTrade s p date price).trades, t.buy_date ≤ t.sell_date) ∧
    (closeTrade s p date price).position = none := by
  refine ⟨?_, rfl⟩
  intro t ht
  simp only [closeTrade, List.mem_append, List.mem_singleton] at ht
  rcases ht with ht | rfl
  · exact hts t ht
  · exact hp

/-- One signal step on day `d` keeps trades date-ordered and any open
position bought no later than `d`. -/
theorem processSignal_dates (req : BacktestRequest) (d : ℕ) (price : ℚ)
    (s : BState) (sig : Signal)
    (h : (∀ t ∈ s.trades, t.buy_date ≤ t.sell_date) ∧
      (∀ p, s.position = some p → p.buy_date ≤ d)) :
    (∀ t ∈ (processSignal req d price s sig).trades, t.buy_date ≤ t.sell_date) ∧
    (∀ p, (processSignal req d price s sig).position = some p → p.buy_date ≤ d) := by
  obtain ⟨h1, h2⟩ := h
  cases hst : sig.signal_type with
  | buy =>
    cases hpos : s.position with
    | none =>
      rw [processSignal_buy_flat req d price s sig hst hpos]
      split_ifs with hc
      · refine ⟨h1, ?_⟩
        intro p hp
        simp only [Option.some.injEq] at hp
        rw [← hp]
      · exact ⟨h1, h2⟩
    | some p =>
      rw [processSignal_buy_open req d price s sig p hst hpos]
      exact ⟨h1, h2⟩
  | sell =>
    cases hpos : s.position with
    | none =>
      rw [processSignal_sell_flat req d price s sig hst hpos]
      exact ⟨h1, h2⟩
    | some p =>
      rw [processSignal_sell_open req d price s sig p hst hpos]
      have hc := closeTrade_dates s p d price h1 (h2 p hpos)
      exact ⟨hc.1, fun q hq => absurd (hc.2 ▸ hq) (by simp)⟩
  | hold =>
    rw [processSignal_hold req d price s sig hst]
    exact ⟨h1, h2⟩

/-- The hold-days check on day `d` keeps trades date-ordered and any open
position bought no later than `d`. -/
theorem holdCheck_dates (req : BacktestRequest) (d : ℕ) (price : ℚ) (s : BState)
    (h : (∀ t ∈ s.trades, t.buy_date ≤ t.sell_date) ∧
      (∀ p, s.position = some p → p.buy_date ≤ d)) :
    (∀ t ∈ (holdDaysCheck req d price s).trades, t.buy_date ≤ t.sell_date) ∧
    (∀ p, (holdDaysCheck req d price s).position = some p → p.buy_date ≤ d) := by
  obtain ⟨h1, h2⟩ := h
  cases hpos : s.position with
  | none =>
    rw [holdCheck_flat req d price s hpos]
    exact ⟨h1, h2⟩
  | some p =>
    cases hd : req.hold_days with
    | none =>
      rw [holdCheck_noLimit req d price s hd]
      exact ⟨h1, h2⟩
    | some hdays =>
      rw [holdCheck_open req d price s p hdays hpos hd]
      split_ifs with hcond
      · have hc := closeTrade_dates s p d price h1 (h2 p hpos)
        exact ⟨hc.1, fun q hq => absurd (hc.2 ▸ hq) (by simp)⟩
      · exact ⟨h1, h2⟩

/-- One simulated day keeps trades date-ordered and any open position
bought no later than that day. -/
theorem signalDayStep_dates (req : BacktestRequest) (eligible : List Signal)
    (s : BState) (row : IndRow)
    (h : (∀ t ∈ s.trades, t.buy_date ≤ t.sell_date) ∧
      (∀ p, s.position = some p → p.buy_date ≤ row.date)) :
    (∀ t ∈ (signalDayStep req eligible s row).trades, t.buy_date ≤ t.sell_date) ∧
    (∀ p, (signalDayStep req eligible s row).position = some p → p.buy_date ≤ row.date) := by
  simp only [signalDayStep]
  split_ifs with hd
  · exact h
  · exact holdCheck_dates req row.date row.close _
      (foldlPreserve (processSignal req row.date row.close)
        (fun s2 => (∀ t ∈ s2.trades, t.buy_date ≤ t.sell_date) ∧
          (∀ p, s2.position = some p → p.buy_date ≤ row.date))
        (fun s2 sig hs2 => processSignal_dates req row.date row.close s2 sig hs2)
        _ s h)

/-- Folding the day loop along a date-sorted frame keeps trades
date-ordered, and any position still open was bought no later than the last
processed date. -/
theorem foldDays_dates (req : BacktestRequest) (eligible : List Signal) :
    ∀ (rows : List IndRow) (d : ℕ) (s : BState),
    List.Chain' (· ≤ ·) (d :: rows.map IndRow.date) →
    (∀ t ∈ s.trades, t.buy_date ≤ t.sell_date) →
    (∀ p, s.position = some p → p.buy_date ≤ d) →
    (∀ t ∈ (rows.foldl (signalDayStep req eligible) s).trades, t.buy_date ≤ t.sell_date) ∧
    (∀ p, (rows.foldl (signalDayStep req eligible) s).position = some p →
      p.buy_date ≤ (rows.map IndRow.date).getLastD d)
  | [], d, s, _, h1, h2 => ⟨h1, h2⟩
  | r :: rest, d, s, hchain, h1, h2 => by
    simp only [List.map_cons, List.chain'_cons] at hchain
    simp only [List.map_cons, List.getLastD_cons, List.foldl_cons]
    have hstep := signalDayStep_dates req eligible s r
      ⟨h1, fun p hp => le_trans (h2 p hp) hchain.1⟩
    exact foldDays_dates req eligible rest r.date (signalDayStep req eligible s r)
      (by simpa using hchain.2) hstep.1 hstep.2

/-- The end-of-backtest close keeps trades date-ordered provided the open
position, if any, was bought no later than the final date. -/
theorem endClose_dates (s : BState) (df : List IndRow)
    (hts : ∀ t ∈ s.trades, t.buy_date ≤ t.sell_date)
    (hp : ∀ p, s.position = some p → ∀ lastRow, df.getLast? = some lastRow →
      p.buy_date ≤ lastRow.date) :
    ∀ t ∈ (endOfBacktestClose s df).trades, t.buy_date ≤ t.sell_date := by
  cases hpos : s.position with
  | none =>
    rw [endClose_flat s df hpos]
    exact hts
  | some p =>
    cases hlast : df.getLast? with
    | none =>
      unfold endOfBacktestClose
      rw [hpos, hlast]
      exact hts
    | some lastRow =>
      rw [endClose_open s df p lastRow hpos hlast]
      exact (closeTrade_dates s p lastRow.date lastRow.close hts
        (hp p hpos lastRow hlast)).1

/-- C2 (amended): over a date-sorted input series every recorded trade of
the signal-based backtest satisfies `buy_date ≤ sell_date`; equality is
possible, because a buy and a sell signal matched on the same date close
the position the day it was opened, and a position opened on the final day
is force-closed the same day. -/
theorem C2_sell_date_ge (req : BacktestRequest) (prices : List PricePoint)
    (hsort : List.Chain' (· ≤ ·) (prices.map PricePoint.date)) :
    ∀ t ∈ (backtest_signal_based_strategy req prices).trades,
      t.buy_date ≤ t.sell_date := by
  have hchain : List.Chain' (· ≤ ·)
      ((calculate_technical_indicators prices).map IndRow.date) := by
    rw [engine_date_proj]
    exact hsort
  simp only [backtest_signal_based_strategy]
  split_ifs with hlen hsig
  · simp [initState]
  · simp [initState]
  · have hchain0 : List.Chain' (· ≤ ·)
        ((0 : ℕ) :: (calculate_technical_indicators prices).map IndRow.date) := by
      cases hm : (calculate_technical_indicators prices).map IndRow.date with
      | nil => simp
      | cons a l => exact List.Chain'.cons (Nat.zero_le a) (hm ▸ hchain)
    have hfold := foldDays_dates req
      (eligibleSignals req
        (detect_trading_signals_for_backtest (calculate_technical_indicators prices) 5))
      (calculate_technical_indicators prices) 0
      (initState req.initial_capital) hchain0 (by simp [initState]) (by simp [initState])
    refine endClose_dates _ _ hfold.1 ?_
    intro p hp lastRow hlast
    have hle := hfold.2 p hp
    rw [List.getLastD_eq_getLast?, List.getLast?_map, hlast] at hle
    exact hle

section ConcreteC2

attribute [local semireducible] Rat.mul Rat.inv Rat.add Rat.sub

set_option maxRecDepth 1000000

/-- C2 counterexample: on the rising series the MA golden cross and the RSI
overbought rule both fire on day 30; the backtester opens the position on
that buy and closes it on the same day's sell, so a recorded trade has
`sell_date = buy_date`, refuting strictness. -/
theorem C2_counterexample :
    ∃ t ∈ (backtest_signal_based_strategy reqDefault risePrices).trades,
      ¬ t.buy_date < t.sell_date := by
  decide

/-- Witness for the amended C2 theorem: the first trade of the rising-series
run satisfies the non-strict ordering. -/
theorem C2_witness :
    (⟨1, 30, 110, 30, 110, 100, 0, 0, 0⟩ : BacktestTrade).buy_date
      ≤ (⟨1, 30, 110, 30, 110, 100, 0, 0, 0⟩ : BacktestTrade).sell_date := by
  have hdates : risePrices.map PricePoint.date = List.range 31 := by decide
  have hsort : List.Chain' (· ≤ ·) (risePrices.map PricePoint.date) := by
    rw [hdates]
    exact ((List.pairwise_lt_range 31).imp (fun h => le_of_lt h)).chain'
  exact C2_sell_date_ge reqDefault risePrices hsort _ (by decide)

end ConcreteC2

/-- Closed form of the equity-curve fold: starting from accumulated points
`acc` and capital `cap`, the fold over a day range appends one point per
day whose capital is `cap` plus the accumulated per-day deltas. -/
theorem equity_fold (trades : List BacktestTrade) :
    ∀ (n startDate : ℕ) (cap : ℚ) (acc : List (ℕ × ℚ)),
    ((List.range' startDate n).foldl
      (fun acc2 d =>
        let c := acc2.2 - buyCostOn trades d + sellProceedsOn trades d
        (acc2.1 ++ [(d, c)], c)) (acc, cap)).1
    = acc ++ (List.range' startDate n).map (fun d =>
        (d, cap + ((List.range' startDate (d + 1 - startDate)).map
          (fun e => sellProceedsOn trades e - buyCostOn trades e)).sum))
  | 0, startDate, cap, acc => by simp
  | n+1, startDate, cap, acc => by
    rw [List.range'_succ]
    simp only [List.foldl_cons, List.map_cons]
    rw [equity_fold trades n (startDate + 1)
      (cap - buyCostOn trades startDate + sellProceedsOn trades startDate)
      (acc ++ [(startDate, cap - buyCostOn trades startDate + sellProceedsOn trades startDate)])]
    rw [List.append_assoc, List.singleton_append]
    congr 1
    congr 1
    · congr 1
      have h1 : startDate + 1 - startDate = 1 := by omega
      rw [h1]
      simp only [List.range'_one, List.map_cons, List.map_nil, List.sum_cons, List.sum_nil]
      ring
    · apply List.map_congr_left
      intro d hd
      have hmem := List.mem_range'_1.mp hd
      have h2 : d + 1 - startDate = (d - startDate) + 1 := by omega
      have h3 : d + 1 - (startDate + 1) = d - startDate := by omega
      have h4 : d - startDate = (d - (startDate + 1)) + 1 := by omega
      rw [h2, h3]
      have h5 : List.range' startDate (d - startDate + 1)
          = startDate :: List.range' (startDate + 1) (d - startDate) := List.range'_succ ..
      rw [h5]
      simp only [List.map_cons, List.sum_cons, Prod.mk.injEq, true_and]
      ring

/-- C7: the equity curve has exactly one point per calendar day in
`[startDate, endDate]`, whose capital is the running value that starts at
the initial capital and moves only by the buy costs and sell proceeds
booked on each day (`equitySpecCapital`); a day on which no trade is bought
or sold leaves the capital unchanged. -/
theorem C7_equity_curve (trades : List BacktestTrade) (initialCapital : ℚ)
    (startDate endDate : ℕ) :
    calculate_equity_curve trades initialCapital startDate endDate
      = (List.range' startDate (endDate + 1 - startDate)).map
          (fun d => (d, equitySpecCapital trades initialCapital startDate d)) ∧
    (∀ d, startDate < d → d ≤ endDate →
      (∀ t ∈ trades, t.buy_date ≠ d ∧ t.sell_date ≠ d) →
      equitySpecCapital trades initialCapital startDate d
        = equitySpecCapital trades initialCapital startDate (d - 1)) := by
  constructor
  · unfold calculate_equity_curve
    rw [equity_fold trades (endDate + 1 - startDate) startDate initialCapital []]
    simp [equitySpecCapital]
  · intro d hd1 hd2 hno
    have hb : buyCostOn trades d = 0 := by
      unfold buyCostOn
      rw [List.filter_eq_nil_iff.mpr (fun t ht => by simpa using (hno t ht).1)]
      simp
    have hsell : sellProceedsOn trades d = 0 := by
      unfold sellProceedsOn
      rw [List.filter_eq_nil_iff.mpr (fun t ht => by simpa using (hno t ht).2)]
      simp
    unfold equitySpecCapital
    have h2 : d + 1 - startDate = (d - startDate) + 1 := by omega
    have h3 : d - 1 + 1 - startDate = d - startDate := by omega
    rw [h2, h3, List.range'_concat]
    have h4 : startDate + 1 * (d - startDate) = d := by omega
    rw [h4]
    simp [hb, hsell]

section ConcreteC7

attribute [local semireducible] Rat.mul Rat.inv Rat.add Rat.sub

set_option maxRecDepth 1000000

/-- Witness for C7 at a concrete trade list and date range, including a
quiet day (day 5 books no transaction). -/
theorem C7_equity_curve_witness :
    calculate_equity_curve [tradeC7] 100000 0 6
      = (List.range' 0 7).map (fun d => (d, equitySpecCapital [tradeC7] 100000 0 d)) ∧
    equitySpecCapital [tradeC7] 100000 0 5 = equitySpecCapital [tradeC7] 100000 0 4 := by
  refine ⟨(C7_equity_curve [tradeC7] 100000 0 6).1, ?_⟩
  have h := (C7_equity_curve [tradeC7] 100000 0 6).2 5 (by decide) (by decide) (by decide)
  simpa using h

end ConcreteC7

/-- The last row of a truncation is the row at the truncation index. -/
theorem take_getLastD (l : List IndRow) (i : ℕ) (hi : i < l.length) :
    (l.take (i+1)).getLastD default = l.getD i default := by
  have hlen : (l.take (i+1)).length = i + 1 := by
    simp [List.length_take]
    omega
  rw [List.getLastD_eq_getLast?, List.getLast?_eq_getElem?, hlen]
  simp [List.getElem?_take, List.getD_eq_getElem?_getD]

/-- Reading inside the truncated range agrees with the full frame. -/
theorem take_getD (l : List IndRow) (i j : ℕ) (hj : j < i + 1) :
    (l.take (i+1)).getD j default = l.getD j default := by
  simp [List.getD_eq_getElem?_getD, List.getElem?_take, hj]

/-- The two scan modes agree on the MA cross rule: the full-scan mode's
explicit non-NaN guard on the previous row is equivalent to the latest
mode's NaN-is-never-comparable float comparisons, and the two cross
directions are mutually exclusive. -/
theorem maBlock_eq (tk : List IndRow) (w : ℕ) (cur prv : IndRow) :
    maBlockFB tk w cur prv = maBlockLatest tk w cur prv := by
  unfold maBlockFB maBlockLatest
  rcases cur.ma5 with _ | a
  · simp
  rcases cur.ma30 with _ | b
  · simp
  rcases prv.ma5 with _ | pa
  · simp [oleB, ogeB]
  rcases prv.ma30 with _ | pb
  · simp [oleB, ogeB]
  simp only [oleB, ogeB, decide_eq_true_eq]
  split_ifs with h1 h2
  · exact absurd h2.1 (not_lt.2 h1.1.le)
  · simp
  · simp
  · simp

/-- The two scan modes agree on the MACD cross rule once the frame has more
than one row. -/
theorem macdBlock_eq (tk : List IndRow) (cur prv : IndRow)
    (hlen : 1 < tk.length) :
    macdBlockFB cur prv = macdBlockLatest tk cur prv := by
  unfold macdBlockFB macdBlockLatest
  rcases cur.macd with _ | m
  · simp
  rcases cur.macd_signal with _ | s0
  · simp
  rcases prv.macd with _ | pm
  · simp [oleB, ogeB]
  rcases prv.macd_signal with _ | ps
  · simp [oleB, ogeB]
  simp only [oleB, ogeB, decide_eq_true_eq, hlen, if_true]

/-- `removeHold` distributes over concatenation. -/
theorem removeHold_append (xs ys : List Signal) :
    removeHold (xs ++ ys) = removeHold xs ++ removeHold ys :=
  List.filter_append ..

/-- The hold fallback is of hold type. -/
theorem holdSignal_type (df : List IndRow) (latest : IndRow) :
    (holdSignal df latest).signal_type = SigType.hold := rfl

/-- `removeHold` deletes the hold fallback. -/
theorem removeHold_holdSignal (df : List IndRow) (latest : IndRow) :
    removeHold [holdSignal df latest] = [] := by
  simp [removeHold, List.filter, holdSignal_type]

/-- MA cross signals are never hold signals. -/
theorem removeHold_maFB (tk : List IndRow) (w : ℕ) (cur prv : IndRow) :
    removeHold (maBlockFB tk w cur prv) = maBlockFB tk w cur prv := by
  unfold maBlockFB
  rcases cur.ma5 with _ | a <;> rcases cur.ma30 with _ | b <;>
    rcases prv.ma5 with _ | pa <;> rcases prv.ma30 with _ | pb <;>
    try simp [removeHold]
  split_ifs <;> simp [removeHold, List.filter]

/-- RSI signals are never hold signals. -/
theorem removeHold_rsi (ctx : List IndRow) (w : ℕ) (row : IndRow) :
    removeHold (rsiSignalBlock ctx w row) = rsiSignalBlock ctx w row := by
  unfold rsiSignalBlock
  rcases row.rsi with _ | r
  · simp [removeHold]
  dsimp only
  split_ifs <;> simp [removeHold, List.filter]

/-- MACD cross signals are never hold signals. -/
theorem removeHold_macdFB (cur prv : IndRow) :
    removeHold (macdBlockFB cur prv) = macdBlockFB cur prv := by
  unfold macdBlockFB
  rcases cur.macd with _ | m <;> rcases cur.macd_signal with _ | s0 <;>
    rcases prv.macd with _ | pm <;> rcases prv.macd_signal with _ | ps <;>
    try simp [removeHold]
  split_ifs <;> simp [removeHold, List.filter]

/-- One day of the full-history scan equals the latest-day detector applied
to the frame truncated at that day, with the hold fallback removed. -/
theorem day_eq (df : List IndRow) (w i : ℕ) (h30 : 30 ≤ i) (hi : i < df.length) :
    backtestDaySignals df w i
      = removeHold (detect_trading_signals (df.take (i+1)) w) := by
  have hlen : (df.take (i+1)).length = i + 1 := by
    simp [List.length_take]
    omega
  have hlt : ¬ (df.take (i+1)).length < 30 := by
    rw [hlen]
    omega
  have h1 : 1 < (df.take (i+1)).length := by
    rw [hlen]
    omega
  have hlast : (df.take (i+1)).getLastD default = df.getD i default :=
    take_getLastD df i hi
  have hprev : (df.take (i+1)).getD ((df.take (i+1)).length - 2) default
      = df.getD (i-1) default := by
    rw [hlen]
    have h2 : i + 1 - 2 = i - 1 := by omega
    rw [h2]
    exact take_getD df i (i-1) (by omega)
  simp only [detect_trading_signals, backtestDaySignals]
  rw [if_neg hlt, if_pos h1, if_pos (show 0 < i by omega), hprev, hlast]
  rw [← maBlock_eq (df.take (i+1)) w (df.getD i default) (df.getD (i-1) default),
    ← macdBlock_eq (df.take (i+1)) (df.getD i default) (df.getD (i-1) default) h1]
  by_cases hL : maBlockFB (df.take (i+1)) w (df.getD i default) (df.getD (i-1) default) ++
      rsiSignalBlock (df.take (i+1)) w (df.getD i default) ++
      macdBlockFB (df.getD i default) (df.getD (i-1) default) = []
  · rw [if_pos hL, hL, removeHold_holdSignal]
  · rw [if_neg hL, removeHold_append, removeHold_append, removeHold_maFB,
      removeHold_rsi, removeHold_macdFB]

/-- C1 (amended): the full-history scan returns exactly the concatenation,
in date order, of the latest-day detector applied to the frame truncated at
every index ≥ 30, after removing the hold fallback signals that exist only
in latest mode. -/
theorem C1_scan_modes (df : List IndRow) (w : ℕ) :
    detect_trading_signals_for_backtest df w
      = ((List.range' 30 (df.length - 30)).map
          (fun i => removeHold (detect_trading_signals (df.take (i+1)) w))).flatten := by
  unfold detect_trading_signals_for_backtest
  split_ifs with hlen
  · have h0 : df.length - 30 = 0 := by omega
    rw [h0]
    simp
  · congr 1
    apply List.map_congr_left
    intro i hi
    have hmem := List.mem_range'_1.mp hi
    exact day_eq df w i hmem.1 (by omega)

section ConcreteC1

attribute [local semireducible] Rat.mul Rat.inv Rat.add Rat.sub

set_option maxRecDepth 1000000

/-- C1 counterexample: on the flat 31-day series no rule ever fires, so the
full-history scan returns no signals while the latest-day detector on the
(single) truncation synthesizes a hold signal — the plain concatenation of
latest-day results therefore differs from the full-history scan. -/
theorem C1_counterexample :
    detect_trading_signals_for_backtest (calculate_technical_indicators flatPrices) 5
      ≠ ((List.range' 30 ((calculate_technical_indicators flatPrices).length - 30)).map
          (fun i => detect_trading_signals
            ((calculate_technical_indicators flatPrices).take (i+1)) 5)).flatten := by
  decide

end ConcreteC1
